import Mathlib

/-
Verification development for the cadastral scraper (src/scraperdb.py).

The embedding below is a shallow model of the single source file:
  * `Content`, `Possessor`, `PossessionSheet` model the recognized JSON
    response shape of the remote lookup.
  * `extract`, `firstPossessor` model the record-building part of
    `FastCadastralScraper.get_parcel_info` (lines 84-105).
  * `Response`/`JsonBody` enumerate the environments a single HTTP exchange
    can present; `get_parcel_info` is the total function the method computes
    over them (the `try`/`except` swallows every exception, so the method is
    total: it returns an optional record plus the updated counters).
  * `upsertRow`, `executemany`, `insert_many` model
    `CadastralDatabase.insert_many` (lines 33-41): `with self.conn` commits
    when `executemany` finishes and rolls back when it raises; a raised
    exception midway through the parameter sequence is modelled by the
    `TxStep.fail` marker.  SQLite's NULL-primary-key auto-assignment path is
    outside the claims' scope, so stored rows carry a concrete integer key.
  * `startingId`, `batchIds`, `schedStep`, `schedRun`, `scrape_range` model
    `FastCadastralScraper.scrape_range` (lines 115-157); per-iteration
    environments (did the batch's gather raise, which rows came back, how
    long the batch took) are an oracle list, which also bounds the number of
    loop iterations the model unfolds.
  * `SemState`/`SemStep` model `asyncio.Semaphore(1000)` (line 64) as a
    transition system; `fetchEvents` records the event order of one
    `get_parcel_info` call (`async with self.semaphore` wraps the whole
    `try`/`except`, so the slot is released on every path).
-/

namespace CadastralScraper

/-- One entry of a possession sheet's `possessors` list; the three fields the
code reads off it with `.get` may be absent. -/
structure Possessor where
  name : Option String
  ownership : Option String
  address : Option String
deriving DecidableEq

/-- One possession sheet; an absent or empty `possessors` list is falsy in
Python, so both are modelled as `[]`. -/
structure PossessionSheet where
  possessors : List Possessor
deriving DecidableEq

/-- The recognized JSON object shape of a successful lookup response.  An
absent `possessionSheets` key and an empty list are both falsy, so both are
modelled as `[]`. -/
structure Content where
  parcelId : Option Int
  cadMunicipalityName : Option String
  parcelNumber : Option String
  address : Option String
  area : Option ℚ
  possessionSheets : List PossessionSheet
deriving DecidableEq

/-- The normalized record dict built by `get_parcel_info`. -/
structure Record where
  parcel_id : Option Int
  municipality_name : Option String
  parcel_number : Option String
  address : Option String
  area : Option ℚ
  owner_name : Option String
  owner_ownership : Option String
  owner_address : Option String
deriving DecidableEq

/-- The `for sheet in content['possessionSheets']` loop of lines 96-104:
walk the sheets in source order, and at the first sheet whose `possessors`
list is non-empty return its first possessor (`break`). -/
def firstPossessor : List PossessionSheet → Option Possessor
  | [] => none
  | sheet :: rest =>
    match sheet.possessors with
    | [] => firstPossessor rest
    | possessor :: _ => some possessor

/-- Lines 84-105: build the record dict with owner fields defaulted to
`None`, then, when the sheet list is truthy, overwrite all three owner
fields from the first possessor found by the sheet loop. -/
def extract (content : Content) : Record :=
  let data : Record :=
    { parcel_id := content.parcelId
      municipality_name := content.cadMunicipalityName
      parcel_number := content.parcelNumber
      address := content.address
      area := content.area
      owner_name := none
      owner_ownership := none
      owner_address := none }
  if content.possessionSheets.isEmpty then data
  else
    match firstPossessor content.possessionSheets with
    | some possessor =>
      { data with
          owner_name := possessor.name
          owner_ownership := possessor.ownership
          owner_address := possessor.address }
    | none => data

/-- What `await response.json()` can yield, as seen by the code: the awaited
parse can raise (`parseError`), parse to a falsy value (`None`, `{}`, `[]`,
`0`, `""`), parse to a truthy value that is not an object (so the later
`content.get` raises `AttributeError`), or parse to a recognized object. -/
inductive JsonBody where
  | parseError
  | falsy
  | nondict
  | object (content : Content)
deriving DecidableEq

/-- The environment one HTTP exchange presents: either `session.get` itself
raises (timeout, connection reset, ...) or a status line plus body arrive. -/
inductive Response where
  | requestError
  | http (status : Nat) (body : JsonBody)
deriving DecidableEq

/-- The two process-wide counters (lines 66-67). -/
structure Counters where
  successful_requests : Nat
  failed_requests : Nat
deriving DecidableEq

/-- Lines 69-108, `FastCadastralScraper.get_parcel_info`, as a total
function of the requested identifier, the current counters and the
environment's response.  Every `except` path returns `None`, so no
exception ever escapes to the caller; the requested `parcel_id` only
shapes the outgoing request and never the returned record. -/
def get_parcel_info (parcel_id : Int) (counters : Counters) (resp : Response) :
    Option Record × Counters :=
  match resp with
  | .requestError =>
    (none, { counters with failed_requests := counters.failed_requests + 1 })
  | .http status body =>
    if status ≠ 200 then
      (none, { counters with failed_requests := counters.failed_requests + 1 })
    else
      match body with
      | .parseError =>
        (none, { counters with failed_requests := counters.failed_requests + 1 })
      | .falsy =>
        (none,
         { counters with successful_requests := counters.successful_requests + 1 })
      | .nondict =>
        (none,
         { counters with
             successful_requests := counters.successful_requests + 1
             failed_requests := counters.failed_requests + 1 })
      | .object content =>
        (some (extract content),
         { counters with successful_requests := counters.successful_requests + 1 })

/-- One row of the `parcels` table (lines 18-30); the primary key is a
concrete integer (the NULL-key auto-assignment path of SQLite is outside
the claims' scope).  `created_at` is store-assigned and plays no role in
any claim, so it is omitted from the row model. -/
structure DbRow where
  parcel_id : Int
  municipality_name : Option String
  parcel_number : Option String
  address : Option String
  area : Option ℚ
  owner_name : Option String
  owner_ownership : Option String
  owner_address : Option String
deriving DecidableEq

/-- The `parcels` table as the list of its rows. -/
abbrev Store := List DbRow

/-- One `INSERT OR REPLACE` row write: any row with the same primary key is
deleted and the new row is inserted. -/
def upsertRow (store : Store) (r : DbRow) : Store :=
  store.filter (fun row => row.parcel_id ≠ r.parcel_id) ++ [r]

/-- One element of the parameter sequence handed to `executemany`: either a
row that binds and writes cleanly, or a record whose processing raises
(failure injection for the mid-persist interruption scenario). -/
inductive TxStep where
  | write (r : DbRow)
  | fail
deriving DecidableEq

/-- The `executemany` call of lines 35-41: apply the parameter rows one by
one; a raised exception midway aborts with `none` (the rows already written
are only visible inside the still-open transaction). -/
def executemany : Store → List TxStep → Option Store
  | store, [] => some store
  | store, .write r :: rest => executemany (upsertRow store r) rest
  | _, .fail :: _ => none

/-- `CadastralDatabase.insert_many` (lines 33-41): the `with self.conn`
block commits the transaction when `executemany` returns and rolls it back
to the pre-call store when it raises.  The boolean reports whether the call
completed without raising. -/
def insert_many (store : Store) (records : List TxStep) : Store × Bool :=
  match executemany store records with
  | some store' => (store', true)
  | none => (store, false)

/-- The pure effect of a batch whose every row write succeeds, used to state
what a committed `insert_many` call leaves behind. -/
def applyWrites (store : Store) (records : List TxStep) : Store :=
  records.foldl
    (fun s step =>
      match step with
      | .write r => upsertRow s r
      | .fail => s)
    store

/-- `CadastralDatabase.get_last_id` (lines 43-45): `SELECT MAX(parcel_id)`,
`none` on an empty table. -/
def get_last_id (store : Store) : Option Int :=
  store.foldl
    (fun acc row =>
      match acc with
      | none => some row.parcel_id
      | some m => some (max m row.parcel_id))
    none

/-- Aggregate row of `CadastralDatabase.get_stats` (lines 47-50). -/
structure Stats where
  count : Nat
  min_id : Option Int
  max_id : Option Int
deriving DecidableEq

/-- `CadastralDatabase.get_stats` (lines 47-50). -/
def get_stats (store : Store) : Stats :=
  { count := store.length
    min_id :=
      store.foldl
        (fun acc row =>
          match acc with
          | none => some row.parcel_id
          | some m => some (min m row.parcel_id))
        none
    max_id := get_last_id store }

/-- `self.batch_size = 10000` (line 62). -/
def batch_size : Nat := 10000

/-- `asyncio.Semaphore(1000)` (line 64). -/
def semaphoreLimit : Nat := 1000

/-- Line 120: `current_id = last_id + 1 if last_id else start_id`.  The
Python condition is truthiness, so both a missing maximum (`None`) and a
zero maximum fall back to the configured start. -/
def startingId (last_id : Option Int) (start_id : Int) : Int :=
  match last_id with
  | some m => if m ≠ 0 then m + 1 else start_id
  | none => start_id

/-- Line 111: the identifiers a batch creates one fetch task for,
`start_id + i for i in range(batch_size)` — always a full batch, with no
clipping against any upper bound. -/
def batchIds (current_id : Int) (B : Nat) : List Int :=
  (List.range B).map (fun i : Nat => current_id + (i : Int))

/-- `FastCadastralScraper.process_batch` (lines 110-113) under a fixed
per-identifier environment: gather the per-identifier fetch results and
keep the non-`None` ones.  (Counter threading across the concurrent
fetches is interleaving-dependent and not needed by any claim, so the
result list alone is modelled here.) -/
def process_batch (env : Int → Response) (counters : Counters) (start_id : Int)
    (B : Nat) : List Record :=
  ((batchIds start_id B).map
    (fun i => (get_parcel_info i counters (env i)).1)).filterMap (fun r => r)

/-- The scheduler state carried across iterations of the `while` loop of
`scrape_range`: the loop variable, the rolling duration window, and the
store the batches commit into. -/
structure SchedState where
  current_id : Int
  batch_durations : List ℚ
  store : Store
deriving DecidableEq

/-- The environment of one loop iteration: either the batch's gather raises
before results exist (`fetchErr`), or all fetches resolve to the given
non-`None` result rows (with a possible injected persistence failure among
them) after the given wall-clock duration. -/
inductive BatchOutcome where
  | fetchErr
  | fetched (results : List TxStep) (duration : ℚ)
deriving DecidableEq

/-- What one loop iteration emits besides its successor state: the
identifiers it created fetch tasks for, the `asyncio.sleep` argument of the
error path if taken, and the ETA printed at the top of the iteration if the
duration window was non-empty. -/
structure StepEffects where
  fetched_ids : List Int
  slept : Option Nat
  eta : Option ℚ
deriving DecidableEq

/-- Lines 128-134: the ETA computed at the top of the loop body, before the
batch runs — `average(batch_durations) * (remaining_ids / batch_size)` —
and only when the window is non-empty. -/
def etaOf (B : Nat) (end_id : Int) (st : SchedState) : Option ℚ :=
  if st.batch_durations.isEmpty then none
  else
    let avg_duration := st.batch_durations.sum / (st.batch_durations.length : ℚ)
    let remaining_batches := ((end_id - st.current_id : Int) : ℚ) / (B : ℚ)
    some (avg_duration * remaining_batches)

/-- Lines 144-146: append the completed batch's duration and, when the
window then exceeds 50 entries, `pop(0)` the oldest. -/
def appendDuration (durations : List ℚ) (d : ℚ) : List ℚ :=
  let ds := durations ++ [d]
  if ds.length > 50 then ds.tail else ds

/-- Lines 140-141: `if batch_results: self.db.insert_many(batch_results)` —
the store call happens only for a non-empty result list, so an empty batch
always "persists" trivially. -/
def batchInsert (store : Store) (results : List TxStep) : Store × Bool :=
  if results.isEmpty then (store, true) else insert_many store results

/-- One iteration of the `while` loop body (lines 127-157).  The try block
runs `process_batch`, the conditional `insert_many`, and the duration
bookkeeping; on any exception (`fetchErr`, or a raising `insert_many`) the
`except` arm sleeps 60 and `continue`s with every piece of state
unchanged; otherwise `current_id` advances by the batch size. -/
def schedStep (B : Nat) (end_id : Int) (st : SchedState) (o : BatchOutcome) :
    SchedState × StepEffects :=
  let eta := etaOf B end_id st
  let ids := batchIds st.current_id B
  match o with
  | .fetchErr => (st, { fetched_ids := ids, slept := some 60, eta := eta })
  | .fetched results duration =>
    if (batchInsert st.store results).2 then
      ({ current_id := st.current_id + (B : Int)
         batch_durations := appendDuration st.batch_durations duration
         store := (batchInsert st.store results).1 },
       { fetched_ids := ids, slept := none, eta := eta })
    else
      (st, { fetched_ids := ids, slept := some 60, eta := eta })

/-- The `while current_id < end_id` loop (line 126), unfolded along the
oracle list of per-iteration environments (the oracle also bounds how many
iterations the model unfolds, since the retry loop need not terminate). -/
def schedRun (B : Nat) (end_id : Int) : SchedState → List BatchOutcome →
    SchedState × List StepEffects
  | st, [] => (st, [])
  | st, o :: os =>
    if st.current_id < end_id then
      ((schedRun B end_id (schedStep B end_id st o).1 os).1,
       (schedStep B end_id st o).2 :: (schedRun B end_id (schedStep B end_id st o).1 os).2)
    else (st, [])

/-- `FastCadastralScraper.scrape_range` (lines 115-157): compute the resume
point from the store (lines 119-120), then run the loop. -/
def scrape_range (B : Nat) (store : Store) (start_id end_id : Int)
    (outcomes : List BatchOutcome) : SchedState × List StepEffects :=
  schedRun B end_id
    { current_id := startingId (get_last_id store) start_id
      batch_durations := []
      store := store }
    outcomes

/-- The semaphore's state: available permits plus currently outstanding
holders (fetches that have acquired and not yet released). -/
structure SemState where
  available : Nat
  outstanding : Nat
deriving DecidableEq

/-- The freshly constructed `asyncio.Semaphore(1000)`. -/
def semInit : SemState := { available := semaphoreLimit, outstanding := 0 }

/-- The semaphore's transitions: a fetch may acquire only when a permit is
available (otherwise it suspends), and only an outstanding holder can
release. -/
inductive SemStep : SemState → SemState → Prop where
  | acquire (s : SemState) (h : 0 < s.available) :
      SemStep s { available := s.available - 1, outstanding := s.outstanding + 1 }
  | release (s : SemState) (h : 0 < s.outstanding) :
      SemStep s { available := s.available + 1, outstanding := s.outstanding - 1 }

/-- A semaphore state reachable from the initial one by any interleaving of
acquires and releases. -/
def SemReachable (s : SemState) : Prop :=
  Relation.ReflTransGen SemStep semInit s

/-- The observable limiter events of one fetch. -/
inductive FetchEvent where
  | acquire
  | networkCall
  | release
deriving DecidableEq

/-- The event order of one `get_parcel_info` call: `async with
self.semaphore` (line 70) wraps the entire `try`/`except`, so the slot is
acquired before the network call and released exactly once when the call
completes, on the record path, the absent path and the exception path
alike. -/
def fetchEvents (resp : Response) : List FetchEvent :=
  match resp with
  | _ => [FetchEvent.acquire, FetchEvent.networkCall, FetchEvent.release]

/-- A response object carrying no recognized field at all. -/
def exContentNoKey : Content :=
  { parcelId := none
    cadMunicipalityName := none
    parcelNumber := none
    address := none
    area := none
    possessionSheets := [] }

/-- A response object whose `parcelId` field is 7. -/
def exContentKey7 : Content :=
  { parcelId := some 7
    cadMunicipalityName := none
    parcelNumber := none
    address := none
    area := none
    possessionSheets := [] }

theorem firstPossessor_eq_find (sheets : List PossessionSheet) :
    firstPossessor sheets =
      (sheets.find? (fun sheet => !sheet.possessors.isEmpty)).bind
        (fun sheet => sheet.possessors.head?) := by
  induction sheets with
  | nil => rfl
  | cons sheet rest ih =>
    cases h : sheet.possessors with
    | nil => simp [firstPossessor, h, List.find?_cons, ih]
    | cons possessor ps => simp [firstPossessor, h, List.find?_cons]

/-- C3: the three owner fields of an extracted record all come from the
first possessor of the first sheet (in source order) whose possessors list
is non-empty, later sheets being ignored; when no sheet has a non-empty
possessors list, all three owner fields are `none`. -/
theorem owner_fields_from_first_nonempty_sheet (content : Content) :
    ((extract content).owner_name, (extract content).owner_ownership,
        (extract content).owner_address) =
      match (content.possessionSheets.find?
          (fun sheet => !sheet.possessors.isEmpty)).bind
          (fun sheet => sheet.possessors.head?) with
      | some possessor => (possessor.name, possessor.ownership, possessor.address)
      | none => (none, none, none) := by
  simp only [extract, ← firstPossessor_eq_find]
  cases hs : content.possessionSheets with
  | nil => simp [firstPossessor]
  | cons sheet rest =>
    simp only [List.isEmpty_cons, Bool.false_eq_true, if_false]
    cases hp : firstPossessor (sheet :: rest) with
    | none => simp
    | some possessor => simp

/-- C6: a single fetch is a total function of its environment (no exception
ever reaches the caller), and it returns `none` in exactly the claimed
cases with the claimed counter updates: non-success status counts as
failed; success status with a falsy body counts as a successful exchange;
a transport exception or a malformed payload counts as failed (for a
truthy non-object payload the `AttributeError` is raised after the success
counter has already been bumped, and the failure counter is bumped too);
only a success status with a recognized non-empty object body yields a
record. -/
theorem fetch_outcome_classification (parcel_id : Int) (counters : Counters)
    (resp : Response) :
    (∀ status body, resp = Response.http status body → status ≠ 200 →
        get_parcel_info parcel_id counters resp =
          (none, { counters with failed_requests := counters.failed_requests + 1 }))
    ∧ (resp = Response.http 200 JsonBody.falsy →
        get_parcel_info parcel_id counters resp =
          (none,
           { counters with
               successful_requests := counters.successful_requests + 1 }))
    ∧ (resp = Response.requestError ∨ resp = Response.http 200 JsonBody.parseError →
        get_parcel_info parcel_id counters resp =
          (none, { counters with failed_requests := counters.failed_requests + 1 }))
    ∧ (resp = Response.http 200 JsonBody.nondict →
        (get_parcel_info parcel_id counters resp).1 = none
        ∧ (get_parcel_info parcel_id counters resp).2.failed_requests =
            counters.failed_requests + 1)
    ∧ (∀ r, (get_parcel_info parcel_id counters resp).1 = some r ↔
        ∃ content, resp = Response.http 200 (JsonBody.object content)
          ∧ r = extract content) := by
  refine ⟨?_, ?_, ?_, ?_, ?_⟩
  · rintro status body rfl hne
    simp [get_parcel_info, hne]
  · rintro rfl
    simp [get_parcel_info]
  · rintro (rfl | rfl) <;> simp [get_parcel_info]
  · rintro rfl
    simp [get_parcel_info]
  · intro r
    cases resp with
    | requestError => simp [get_parcel_info]
    | http status body =>
      by_cases hstatus : status = 200
      · subst hstatus
        cases body <;> simp [get_parcel_info, eq_comm]
      · simp [get_parcel_info, hstatus]

/-- Closed instance of the C6 classification at a concrete non-success
status. -/
theorem fetch_outcome_classification_witness :
    get_parcel_info 1 ⟨0, 0⟩ (Response.http 404 JsonBody.falsy) =
      (none, { successful_requests := 0, failed_requests := 0 + 1 }) :=
  (fetch_outcome_classification 1 ⟨0, 0⟩ (Response.http 404 JsonBody.falsy)).1
    404 JsonBody.falsy rfl (by decide)

/-- C10: the `parcel_id` field of every returned record is taken verbatim
from the response body's `parcelId` field, never from the requested
identifier: a fetch of identifier 5 against a body whose `parcelId` is 7
stores key 7, a body lacking `parcelId` yields a record with key `none`,
and no definition ties the stored key to the scanned range. -/
theorem record_key_taken_from_body (requested : Int)
    (counters : Counters) (content : Content) :
    ((extract content).parcel_id = content.parcelId)
    ∧ ((get_parcel_info requested counters
          (Response.http 200 (JsonBody.object content))).1 = some (extract content))
    ∧ ((extract exContentNoKey).parcel_id = none)
    ∧ ((get_parcel_info 5 ⟨0, 0⟩
          (Response.http 200 (JsonBody.object exContentKey7))).1.map
          Record.parcel_id = some (some 7))
    ∧ (some (7 : Int) ≠ some (5 : Int)) := by
  refine ⟨?_, ?_, by decide, by decide, by decide⟩
  · simp only [extract]
    split
    · rfl
    · split <;> rfl
  · simp [get_parcel_info]

/-- A row whose optional fields are all absent. -/
def exRow (k : Int) : DbRow :=
  { parcel_id := k
    municipality_name := none
    parcel_number := none
    address := none
    area := none
    owner_name := none
    owner_ownership := none
    owner_address := none }

/-- A row with the same key shape as `exRow k` but a different field value. -/
def exRowB (k : Int) : DbRow :=
  { exRow k with municipality_name := some "B" }

theorem filter_upsertRow (store : Store) (r : DbRow) :
    (upsertRow store r).filter (fun row => row.parcel_id == r.parcel_id) = [r] := by
  induction store with
  | nil => simp [upsertRow]
  | cons a l ih =>
    by_cases h : a.parcel_id = r.parcel_id
    · simp only [upsertRow, List.filter_cons, h] at ih ⊢
      simp
    · simp only [upsertRow, List.filter_cons] at ih ⊢
      simp [h]

theorem map_key_upsertRow (store : Store) (r : DbRow) :
    (upsertRow store r).map DbRow.parcel_id =
      ((store.map DbRow.parcel_id).filter (fun k => k ≠ r.parcel_id)) ++
        [r.parcel_id] := by
  induction store with
  | nil => simp [upsertRow]
  | cons a l ih =>
    by_cases h : a.parcel_id = r.parcel_id <;>
      simp [upsertRow, List.filter_cons, h] at ih ⊢ <;> exact ih

theorem nodup_keys_upsertRow (store : Store) (r : DbRow)
    (h : (store.map DbRow.parcel_id).Nodup) :
    ((upsertRow store r).map DbRow.parcel_id).Nodup := by
  rw [map_key_upsertRow]
  refine List.Nodup.append (h.filter _) (List.nodup_singleton _) ?_
  intro k hk hk'
  have hne := (List.mem_filter.mp hk).2
  simp only [List.mem_singleton] at hk'
  simp [hk'] at hne

theorem nodup_keys_executemany (steps : List TxStep) :
    ∀ store store' : Store, (store.map DbRow.parcel_id).Nodup →
      executemany store steps = some store' →
      (store'.map DbRow.parcel_id).Nodup := by
  induction steps with
  | nil =>
    intro store store' h he
    simp only [executemany, Option.some.injEq] at he
    exact he ▸ h
  | cons step rest ih =>
    intro store store' h he
    cases step with
    | write r => exact ih _ _ (nodup_keys_upsertRow _ _ h) he
    | fail => simp [executemany] at he

theorem nodup_keys_insert_many (store : Store) (records : List TxStep)
    (h : (store.map DbRow.parcel_id).Nodup) :
    ((insert_many store records).1.map DbRow.parcel_id).Nodup := by
  unfold insert_many
  cases he : executemany store records with
  | none => simpa using h
  | some s' => simpa using nodup_keys_executemany records store s' h he

/-- C4: a second `insert_many` of a row with the same `parcel_id` replaces
the first row in full — exactly one row remains for that key, carrying the
second call's values — and starting from a store with pairwise distinct
keys, no sequence of `insert_many` calls can ever create two rows with the
same `parcel_id`. -/
theorem upsert_last_write_wins (store : Store) (r1 r2 : DbRow)
    (hkey : r1.parcel_id = r2.parcel_id) (records : List TxStep) :
    ((insert_many (insert_many store [TxStep.write r1]).1
        [TxStep.write r2]).1.filter
        (fun row => row.parcel_id == r1.parcel_id) = [r2])
    ∧ ((store.map DbRow.parcel_id).Nodup →
        ((insert_many store records).1.map DbRow.parcel_id).Nodup)
    ∧ (∀ batches : List (List TxStep), (store.map DbRow.parcel_id).Nodup →
        ((batches.foldl (fun s recs => (insert_many s recs).1) store).map
          DbRow.parcel_id).Nodup) := by
  refine ⟨?_, nodup_keys_insert_many store records, ?_⟩
  · show (upsertRow (upsertRow store r1) r2).filter
      (fun row => row.parcel_id == r1.parcel_id) = [r2]
    rw [hkey]
    exact filter_upsertRow (upsertRow store r1) r2
  · intro batches
    induction batches generalizing store with
    | nil => intro h; simpa using h
    | cons recs rest ih =>
      intro h
      exact ih (insert_many store recs).1 (nodup_keys_insert_many store recs h)

/-- Closed instance of C4 at a concrete pair of rows with the same key and
different values. -/
theorem upsert_last_write_wins_witness :
    ((insert_many (insert_many ([] : Store) [TxStep.write (exRow 1)]).1
        [TxStep.write (exRowB 1)]).1.filter
        (fun row => row.parcel_id == (exRow 1).parcel_id) = [exRowB 1])
    ∧ ((insert_many ([] : Store)
        [TxStep.write (exRow 1)]).1.map DbRow.parcel_id).Nodup := by
  have h := upsert_last_write_wins ([] : Store) (exRow 1) (exRowB 1) rfl
    [TxStep.write (exRow 1)]
  exact ⟨h.1, h.2.1 (by decide)⟩

theorem executemany_characterization (steps : List TxStep) :
    ∀ store : Store,
      executemany store steps =
        if TxStep.fail ∈ steps then none else some (applyWrites store steps) := by
  induction steps with
  | nil => intro store; simp [executemany, applyWrites]
  | cons step rest ih =>
    intro store
    cases step with
    | write r =>
      simp only [executemany, ih (upsertRow store r), List.mem_cons]
      simp [applyWrites]
    | fail => simp [executemany]

theorem key_mem_upsertRow (store : Store) (r : DbRow) (k : Int)
    (h : (∃ row ∈ store, row.parcel_id = k) ∨ r.parcel_id = k) :
    ∃ row ∈ upsertRow store r, row.parcel_id = k := by
  by_cases hk : r.parcel_id = k
  · exact ⟨r, by simp [upsertRow], hk⟩
  · rcases h with ⟨row, hrow, hkeyrow⟩ | h
    · refine ⟨row, ?_, hkeyrow⟩
      simp only [upsertRow, List.mem_append, List.mem_filter]
      left
      refine ⟨hrow, ?_⟩
      simp only [decide_eq_true_eq]
      intro hc
      exact hk (by rw [← hc, hkeyrow])
    · exact absurd h hk

theorem key_mem_applyWrites (records : List TxStep) :
    ∀ (store : Store) (k : Int),
      ((∃ row ∈ store, row.parcel_id = k) ∨
        ∃ r, TxStep.write r ∈ records ∧ r.parcel_id = k) →
      ∃ row ∈ applyWrites store records, row.parcel_id = k := by
  induction records with
  | nil =>
    intro store k h
    rcases h with h | ⟨r, hr, _⟩
    · simpa [applyWrites] using h
    · simp at hr
  | cons step rest ih =>
    intro store k h
    cases step with
    | write r =>
      have hw : applyWrites store (TxStep.write r :: rest) =
          applyWrites (upsertRow store r) rest := by simp [applyWrites]
      rw [hw]
      apply ih
      rcases h with h | ⟨r', hr', hk'⟩
      · exact Or.inl (key_mem_upsertRow store r k (Or.inl h))
      · rcases List.mem_cons.mp hr' with heq | hmem
        · refine Or.inl (key_mem_upsertRow store r k (Or.inr ?_))
          cases heq
          exact hk'
        · exact Or.inr ⟨r', hmem, hk'⟩
    | fail =>
      have hw : applyWrites store (TxStep.fail :: rest) =
          applyWrites store rest := by simp [applyWrites]
      rw [hw]
      apply ih
      rcases h with h | ⟨r', hr', hk'⟩
      · exact Or.inl h
      · rcases List.mem_cons.mp hr' with heq | hmem
        · cases heq
        · exact Or.inr ⟨r', hmem, hk'⟩

/-- C5: an `insert_many` call is atomic at call granularity: when the call
fails it leaves the store exactly as it was (no partial subset of the
batch is observable), when it succeeds it applies every record of the
batch (the result is the full sequential application, and every written
record's key is present afterwards), and it succeeds exactly when no
record's write raises. -/
theorem insert_many_atomic (store : Store) (records : List TxStep) :
    ((insert_many store records).2 = false → (insert_many store records).1 = store)
    ∧ ((insert_many store records).2 = true →
        (insert_many store records).1 = applyWrites store records
        ∧ ∀ r, TxStep.write r ∈ records →
            ∃ row ∈ (insert_many store records).1, row.parcel_id = r.parcel_id)
    ∧ ((insert_many store records).2 = true ↔ TxStep.fail ∉ records) := by
  have hchar := executemany_characterization records store
  by_cases hfail : TxStep.fail ∈ records
  · refine ⟨?_, ?_, ?_⟩ <;> simp [insert_many, hchar, hfail]
  · refine ⟨?_, ?_, ?_⟩
    · intro h
      simp [insert_many, hchar, hfail] at h
    · intro _
      have h1 : (insert_many store records).1 = applyWrites store records := by
        simp [insert_many, hchar, hfail]
      refine ⟨h1, ?_⟩
      intro r hr
      rw [h1]
      exact key_mem_applyWrites records store r.parcel_id (Or.inr ⟨r, hr, rfl⟩)
    · simp [insert_many, hchar, hfail]

/-- Closed instance of C5: a batch with an injected mid-persist failure
leaves the store unchanged, and the same batch without the failure applies
in full. -/
theorem insert_many_atomic_witness :
    ((insert_many [exRow 1] [TxStep.write (exRowB 1), TxStep.fail]).1 = [exRow 1])
    ∧ ((insert_many [exRow 1] [TxStep.write (exRowB 1)]).1 =
        applyWrites [exRow 1] [TxStep.write (exRowB 1)]) :=
  ⟨(insert_many_atomic [exRow 1] [TxStep.write (exRowB 1), TxStep.fail]).1
      (by decide),
   ((insert_many_atomic [exRow 1] [TxStep.write (exRowB 1)]).2.1 (by decide)).1⟩

theorem mem_batchIds (c : Int) (B : Nat) (i : Int) :
    i ∈ batchIds c B ↔ c ≤ i ∧ i < c + (B : Int) := by
  simp only [batchIds, List.mem_map, List.mem_range]
  constructor
  · rintro ⟨j, hj, rfl⟩
    omega
  · rintro ⟨h1, h2⟩
    refine ⟨(i - c).toNat, ?_, ?_⟩ <;> omega

theorem length_batchIds (c : Int) (B : Nat) : (batchIds c B).length = B := by
  unfold batchIds
  rw [List.length_map, List.length_range]

theorem schedStep_fetched_ids (B : Nat) (end_id : Int) (st : SchedState)
    (o : BatchOutcome) :
    (schedStep B end_id st o).2.fetched_ids = batchIds st.current_id B := by
  cases o with
  | fetchErr => rfl
  | fetched results duration =>
    simp only [schedStep]
    split <;> rfl

theorem schedStep_eta (B : Nat) (end_id : Int) (st : SchedState)
    (o : BatchOutcome) :
    (schedStep B end_id st o).2.eta = etaOf B end_id st := by
  cases o with
  | fetchErr => rfl
  | fetched results duration =>
    simp only [schedStep]
    split <;> rfl

theorem schedStep_current_id_le (B : Nat) (end_id : Int) (st : SchedState)
    (o : BatchOutcome) :
    st.current_id ≤ (schedStep B end_id st o).1.current_id := by
  cases o with
  | fetchErr => exact le_refl _
  | fetched results duration =>
    simp only [schedStep]
    split
    · simp only
      omega
    · exact le_refl _

theorem schedRun_fetched_lower_bound (B : Nat) (end_id : Int)
    (os : List BatchOutcome) :
    ∀ (st : SchedState), ∀ e ∈ (schedRun B end_id st os).2,
      ∀ i ∈ e.fetched_ids, st.current_id ≤ i := by
  induction os with
  | nil =>
    intro st e he
    simp [schedRun] at he
  | cons o os ih =>
    intro st e he i hi
    by_cases hlt : st.current_id < end_id
    · simp only [schedRun, if_pos hlt] at he
      rcases List.mem_cons.mp he with heq | hmem
      · rw [heq, schedStep_fetched_ids] at hi
        exact ((mem_batchIds _ _ _).mp hi).1
      · exact le_trans (schedStep_current_id_le B end_id st o)
          (ih (schedStep B end_id st o).1 e hmem i hi)
    · simp [schedRun, if_neg hlt] at he

/-- C1 counterexample: with a persisted maximum of 5 and a configured start
of 100, the scheduler's first fetched identifier is 6, not
`max(5 + 1, 100) = 100` — the store's maximum wins even when it lies below
the configured start, so the claimed `max` formula does not describe the
code's resume rule (and its "begins at the configured start" arm fails). -/
theorem resume_start_counterexample :
    startingId (get_last_id [exRow 5]) 100 = 6
    ∧ (6 : Int) ≠ max ((5 : Int) + 1) 100
    ∧ ((scrape_range 2 [exRow 5] 100 200 [BatchOutcome.fetchErr]).2.map
        StepEffects.fetched_ids) = [[6, 7]] := by
  refine ⟨by decide, by decide, by decide⟩

/-- C1 amended: the scheduler starts at `persisted_last_id + 1` whenever
the store holds a nonzero maximum — even when that maximum is below the
configured start — and at the configured start when the store is empty;
in both cases every identifier fetched anywhere in the run is at least
that starting identifier, so with persisted maximum `M` no identifier
`≤ M` is ever refetched. -/
theorem resume_start_amended (B : Nat) (store : Store) (start_id end_id : Int)
    (os : List BatchOutcome) :
    (∀ M : Int, get_last_id store = some M → M ≠ 0 →
      ∀ e ∈ (scrape_range B store start_id end_id os).2,
        ∀ i ∈ e.fetched_ids, M + 1 ≤ i)
    ∧ (get_last_id store = none →
      ∀ e ∈ (scrape_range B store start_id end_id os).2,
        ∀ i ∈ e.fetched_ids, start_id ≤ i) := by
  constructor
  · intro M hM hne e he i hi
    have hstart : startingId (get_last_id store) start_id = M + 1 := by
      simp [startingId, hM, hne]
    have := schedRun_fetched_lower_bound B end_id os
      { current_id := startingId (get_last_id store) start_id
        batch_durations := []
        store := store } e he i hi
    simpa [hstart] using this
  · intro hM e he i hi
    have hstart : startingId (get_last_id store) start_id = start_id := by
      simp [startingId, hM]
    have := schedRun_fetched_lower_bound B end_id os
      { current_id := startingId (get_last_id store) start_id
        batch_durations := []
        store := store } e he i hi
    simpa [hstart] using this

/-- Closed instance of the amended C1 at a store with maximum 5 and a
configured start of 100: identifier 6, the first identifier the run
fetches, is at least `5 + 1`. -/
theorem resume_start_amended_witness : (5 : Int) + 1 ≤ 6 :=
  (resume_start_amended 2 [exRow 5] 100 200 [BatchOutcome.fetchErr]).1 5
    (by decide) (by decide)
    { fetched_ids := [6, 7], slept := some 60, eta := none } (by decide)
    6 (by decide)

/-- C2 counterexample: with `end_id` only one past the current identifier,
the final batch is not shortened: the batch at 0 still creates a fetch
task for every one of the `batch_size = 10000` identifiers `0..9999`, and
in particular fetches identifier 9999 even though `9999 ≥ end_id = 1`
(shown with the loop itself at the model batch size 2, whose single batch
fetches identifier 1 `≥ end_id = 1`). -/
theorem batch_not_clipped_counterexample :
    (batchIds 0 batch_size).length = batch_size
    ∧ (9999 : Int) ∈ batchIds 0 batch_size
    ∧ ¬ ((9999 : Int) < 1)
    ∧ ((scrape_range 2 [] 0 1 [BatchOutcome.fetchErr]).2.map
        StepEffects.fetched_ids) = [[0, 1]] := by
  refine ⟨length_batchIds 0 batch_size, ?_, by decide, by decide⟩
  rw [mem_batchIds]
  constructor
  · decide
  · show (9999 : Int) < 0 + (batch_size : Int)
    decide

/-- C2 amended: the batch started at `current_id` issues exactly
`batch_size` fetches, for precisely the identifiers in
`[current_id, current_id + batch_size)`, regardless of `end_id`: the
final batch is never shortened, and identifiers `≥ end_id` are fetched
whenever fewer than `batch_size` identifiers remain before `end_id`. -/
theorem batch_ids_amended (B : Nat) (end_id : Int) (st : SchedState)
    (o : BatchOutcome) (c i : Int) :
    ((batchIds c B).length = B)
    ∧ (i ∈ batchIds c B ↔ c ≤ i ∧ i < c + (B : Int))
    ∧ ((schedStep B end_id st o).2.fetched_ids = batchIds st.current_id B) :=
  ⟨length_batchIds c B, mem_batchIds c B i, schedStep_fetched_ids B end_id st o⟩

/-- C7: an iteration either sleeps 60 (the error path) or advances; on the
error path — a raising gather, or a raising `insert_many` — every piece of
scheduler state is left unchanged and the same batch range is the one that
was issued, so the retry re-runs it; `current_id` advances by exactly the
batch size only on the non-error path; and the loop guard stops the run
exactly when `current_id ≥ end_id`. -/
theorem batch_retry_and_advance (B : Nat) (end_id : Int) (st : SchedState)
    (o : BatchOutcome) (os : List BatchOutcome) :
    ((schedStep B end_id st o).2.slept = some 60
      ∨ (schedStep B end_id st o).2.slept = none)
    ∧ ((schedStep B end_id st o).2.slept = some 60 →
        (schedStep B end_id st o).1 = st
        ∧ (schedStep B end_id st o).2.fetched_ids = batchIds st.current_id B)
    ∧ ((schedStep B end_id st o).2.slept = none →
        (schedStep B end_id st o).1.current_id = st.current_id + (B : Int))
    ∧ (o = BatchOutcome.fetchErr → (schedStep B end_id st o).2.slept = some 60)
    ∧ (∀ results duration, o = BatchOutcome.fetched results duration →
        ((schedStep B end_id st o).2.slept = some 60 ↔
          results ≠ [] ∧ (insert_many st.store results).2 = false))
    ∧ (¬ st.current_id < end_id → schedRun B end_id st (o :: os) = (st, []))
    ∧ (st.current_id < end_id →
        schedRun B end_id st (o :: os) =
          ((schedRun B end_id (schedStep B end_id st o).1 os).1,
            (schedStep B end_id st o).2 ::
              (schedRun B end_id (schedStep B end_id st o).1 os).2)) := by
  refine ⟨?_, ?_, ?_, ?_, ?_, ?_, ?_⟩
  · cases o with
    | fetchErr => exact Or.inl rfl
    | fetched results duration =>
      simp only [schedStep]
      split
      · exact Or.inr rfl
      · exact Or.inl rfl
  · intro hs
    cases o with
    | fetchErr => exact ⟨rfl, rfl⟩
    | fetched results duration =>
      simp only [schedStep] at hs ⊢
      split at hs
      · simp at hs
      · next h =>
        rw [if_neg h]
        exact ⟨rfl, rfl⟩
  · intro hs
    cases o with
    | fetchErr => simp [schedStep] at hs
    | fetched results duration =>
      simp only [schedStep] at hs ⊢
      split at hs
      · next h => rw [if_pos h]
      · simp at hs
  · rintro rfl
    rfl
  · rintro results duration rfl
    simp only [schedStep]
    by_cases hempty : results.isEmpty
    · have : (batchInsert st.store results).2 = true := by
        simp [batchInsert, hempty]
      rw [if_pos this]
      constructor
      · intro h
        simp at h
      · rintro ⟨hne, _⟩
        exact absurd (List.isEmpty_iff.mp hempty) hne
    · by_cases hins : (insert_many st.store results).2 = true
      · have : (batchInsert st.store results).2 = true := by
          simp [batchInsert, hempty, hins]
        rw [if_pos this]
        constructor
        · intro h
          simp at h
        · rintro ⟨_, hfalse⟩
          rw [hins] at hfalse
          cases hfalse
      · have : ¬ (batchInsert st.store results).2 = true := by
          simp [batchInsert, hempty]
          simpa using hins
        rw [if_neg this]
        refine ⟨fun _ => ⟨?_, by simpa using hins⟩, fun _ => rfl⟩
        intro hnil
        rw [hnil] at hempty
        simp at hempty
  · intro hge
    simp [schedRun, if_neg hge]
  · intro hlt
    simp [schedRun, if_pos hlt]

/-- Closed instance of C7 at a raising batch: the scheduler sleeps 60 and
retries with its state unchanged. -/
theorem batch_retry_and_advance_witness :
    (schedStep 2 10 ⟨0, [], []⟩ BatchOutcome.fetchErr).1 = ⟨0, [], []⟩
    ∧ (schedStep 2 10 ⟨0, [], []⟩ BatchOutcome.fetchErr).2.fetched_ids =
        batchIds 0 2 :=
  (batch_retry_and_advance 2 10 ⟨0, [], []⟩ BatchOutcome.fetchErr []).2.1
    (by decide)

theorem appendDuration_length_le (ds : List ℚ) (d : ℚ) (h : ds.length ≤ 50) :
    (appendDuration ds d).length ≤ 50 := by
  simp only [appendDuration]
  split
  · next hlen =>
    simp only [List.length_tail, List.length_append, List.length_singleton]
    omega
  · next hlen =>
    simp only [List.length_append, List.length_singleton] at hlen ⊢
    omega

theorem schedStep_durations_length_le (B : Nat) (end_id : Int)
    (st : SchedState) (o : BatchOutcome)
    (h : st.batch_durations.length ≤ 50) :
    ((schedStep B end_id st o).1).batch_durations.length ≤ 50 := by
  cases o with
  | fetchErr => exact h
  | fetched results duration =>
    simp only [schedStep]
    split
    · exact appendDuration_length_le st.batch_durations duration h
    · exact h

/-- C8: the rolling window only ever holds completed batches' durations
(the error path leaves it untouched, the success path appends the batch
just completed and evicts the oldest entry once a 51st would be kept), it
never exceeds 50 entries along any run, and the ETA emitted by an
iteration is computed from the pre-iteration window alone — it equals
`average(window) * ((end_id - current_id) / batch_size)` and is entirely
independent of the batch outcome, so the in-progress batch never
contributes to its own estimate. -/
theorem eta_window_bounded (B : Nat) (end_id : Int) :
    (∀ (st : SchedState) (os : List BatchOutcome),
        st.batch_durations.length ≤ 50 →
        ((schedRun B end_id st os).1).batch_durations.length ≤ 50)
    ∧ (∀ (st : SchedState) (o o' : BatchOutcome),
        (schedStep B end_id st o).2.eta = (schedStep B end_id st o').2.eta)
    ∧ (∀ (st : SchedState) (o : BatchOutcome),
        st.batch_durations ≠ [] →
        (schedStep B end_id st o).2.eta =
          some ((st.batch_durations.sum / (st.batch_durations.length : ℚ)) *
            (((end_id - st.current_id : Int) : ℚ) / (B : ℚ))))
    ∧ (∀ (st : SchedState) (o : BatchOutcome),
        (schedStep B end_id st o).2.slept = some 60 →
        ((schedStep B end_id st o).1).batch_durations = st.batch_durations)
    ∧ (∀ (st : SchedState) (results : List TxStep) (duration : ℚ),
        (schedStep B end_id st (BatchOutcome.fetched results duration)).2.slept
            = none →
        ((schedStep B end_id st
            (BatchOutcome.fetched results duration)).1).batch_durations =
          appendDuration st.batch_durations duration)
    ∧ (∀ (ds : List ℚ) (d : ℚ), ds.length = 50 →
        appendDuration ds d = ds.tail ++ [d]) := by
  refine ⟨?_, ?_, ?_, ?_, ?_, ?_⟩
  · intro st os
    induction os generalizing st with
    | nil => intro h; simpa [schedRun] using h
    | cons o os ih =>
      intro h
      by_cases hlt : st.current_id < end_id
      · simp only [schedRun, if_pos hlt]
        exact ih (schedStep B end_id st o).1
          (schedStep_durations_length_le B end_id st o h)
      · simpa [schedRun, if_neg hlt] using h
  · intro st o o'
    rw [schedStep_eta, schedStep_eta]
  · intro st o h
    rw [schedStep_eta]
    simp [etaOf, h]
  · intro st o hs
    cases o with
    | fetchErr => rfl
    | fetched results duration =>
      simp only [schedStep] at hs ⊢
      split at hs
      · simp at hs
      · next h => rw [if_neg h]
  · intro st results duration hs
    simp only [schedStep] at hs ⊢
    split at hs
    · next h => rw [if_pos h]
    · simp at hs
  · intro ds d h
    match ds, h with
    | a :: l, h =>
      have hlen : (a :: l ++ [d]).length > 50 := by
        simp only [List.length_cons] at h
        simp only [List.length_append, List.length_cons, List.length_singleton]
        omega
      simp only [appendDuration]
      rw [if_pos (by simpa using hlen)]
      simp

/-- Closed instance of C8: a run from an empty window keeps the window
within 50 entries. -/
theorem eta_window_bounded_witness :
    ((schedRun 2 10 ⟨0, [], []⟩ [BatchOutcome.fetched [] 1]).1).batch_durations.length
      ≤ 50 :=
  (eta_window_bounded 2 10).1 ⟨0, [], []⟩ [BatchOutcome.fetched [] 1] (by decide)

theorem sem_invariant (s : SemState) (h : SemReachable s) :
    s.available + s.outstanding = semaphoreLimit := by
  induction h with
  | refl => rfl
  | tail hsteps hstep ih =>
    cases hstep with
    | acquire ht =>
      dsimp only at ih ⊢
      omega
    | release ht =>
      dsimp only at ih ⊢
      omega

/-- C9: in every interleaving of acquires and releases reachable from the
fresh semaphore, the number of simultaneously outstanding fetches never
exceeds the fixed ceiling of 1000 (permits and holders always sum to the
ceiling, and an acquire is only enabled while a permit remains); and every
single fetch acquires its slot before the network call and releases
exactly one slot when the call completes, whatever the outcome. -/
theorem concurrency_ceiling (s : SemState) (h : SemReachable s)
    (resp : Response) :
    s.outstanding ≤ semaphoreLimit
    ∧ s.available + s.outstanding = semaphoreLimit
    ∧ fetchEvents resp =
        [FetchEvent.acquire, FetchEvent.networkCall, FetchEvent.release]
    ∧ (fetchEvents resp).count FetchEvent.release = 1 := by
  have hsum := sem_invariant s h
  exact ⟨by omega, hsum, rfl, rfl⟩

/-- Closed instance of C9 at the initial semaphore state and a failing
exchange. -/
theorem concurrency_ceiling_witness :
    semInit.outstanding ≤ semaphoreLimit
    ∧ semInit.available + semInit.outstanding = semaphoreLimit
    ∧ fetchEvents Response.requestError =
        [FetchEvent.acquire, FetchEvent.networkCall, FetchEvent.release]
    ∧ (fetchEvents Response.requestError).count FetchEvent.release = 1 :=
  concurrency_ceiling semInit Relation.ReflTransGen.refl Response.requestError

end CadastralScraper
